import Mathlib

/-!
Verification development for the pax-server package registry
(src/src/main.rs). The server exposes three HTTP endpoints over a
registry root directory: package metadata lookup, package archive
download, and a version banner. The core logic modelled here is the
path sanitizer (path_check), the version resolver (get_latest and
get_version) and the two request handlers (metadata and package).

Modelling conventions:
- Filesystem paths are lists of name components relative to the
  registry root. The filesystem itself is a finite tree: directories
  carry their entries in enumeration order, files carry a Boolean
  saying whether the YAML descriptor decode of their contents
  succeeds (the only observation the handlers make of file contents).
- Rust Path components on a Unix platform are modelled by the
  Component type below. The server trims leading slash characters
  before parsing, so the parser maps a string to components by
  splitting on the separator and dropping empty pieces; root and
  volume components are retained in the datatype because path_check
  matches on them, though the trimmed parser never emits them.
- String splitting, prefix tests and numeral parsing are implemented
  over the character list of the string by structural recursion, with
  the same semantics as the Rust str::split, str::starts_with and
  numeral parsing used by the source.
- Semantic versions are triples of Nat. SemVer.parse is modelled for
  plain MAJOR.MINOR.PATCH numerals (digits only, no leading zeros);
  names of any other form fail to parse, and the code maps every
  parse failure to version 0.0.0.
-/

/-- Split a character list at every occurrence of the separator,
keeping empty pieces; n separators yield n + 1 pieces, so the empty
list yields one empty piece, exactly like Rust str::split. -/
def splitSep (sep : Char) : List Char → List (List Char)
  | [] => [[]]
  | c :: cs =>
    if c = sep then [] :: splitSep sep cs
    else
      match splitSep sep cs with
      | [] => [[c]]
      | g :: gs => (c :: g) :: gs

/-- Split a string at every occurrence of the separator character,
modelling Rust str::split. -/
def splitOnChar (sep : Char) (s : String) : List String :=
  (splitSep sep s.data).map String.mk

/-- Model of Rust str::starts_with for a string pattern. -/
def strStartsWith (s pat : String) : Bool :=
  pat.data.isPrefixOf s.data

/-- A path component in the sense of Rust Path.components on Unix:
a plain name, the current directory marker, the parent directory
marker, the root marker, or a drive/volume marker. -/
inductive Component where
  | normal (name : String)
  | curDir
  | parentDir
  | rootDir
  | volume (name : String)
  deriving DecidableEq, Repr

/-- Decomposition of a request string into path components, modelling
subpath_str.trim_start_matches for the separator followed by
Path.new(..).components() in path_check: split on the separator, drop
empty pieces (this also covers the leading-separator trim), classify
the dot and dot-dot markers. The trimmed input never yields a rootDir
or volume component on Unix. -/
def pathComponents (s : String) : List Component :=
  ((splitOnChar '/' s).filter (fun c => c ≠ "")).map fun c =>
    if c = "." then Component.curDir
    else if c = ".." then Component.parentDir
    else Component.normal c

/-- True for a plain-name component. -/
def isNormalComp : Component → Bool
  | Component.normal _ => true
  | _ => false

/-- The component classes that make path_check reject the whole
input: parent directory, root, and drive/volume markers. -/
def rejectComp : Component → Bool
  | Component.parentDir => true
  | Component.rootDir => true
  | Component.volume _ => true
  | _ => false

/-- A component that is a plain name and whose own decomposition
yields nothing but plain names (the inner guard of path_check). -/
def plainComp : Component → Bool
  | Component.normal n => (pathComponents n).all isNormalComp
  | _ => false

/-- The plain names carried by the accepted components, in order. -/
def acceptedNames (l : List Component) : List String :=
  l.filterMap fun c =>
    match c with
    | Component.normal n => some n
    | _ => none

/-- The component loop of path_check: a plain-name component is pushed
onto the accumulated path if its own decomposition is all plain names,
the current-directory marker is skipped, and a parent, root or volume
marker rejects the whole input. -/
def pathCheckFrom : List String → List Component → Option (List String)
  | acc, [] => some acc
  | acc, Component.normal c :: rest =>
      if (pathComponents c).all isNormalComp then
        pathCheckFrom (acc ++ [c]) rest
      else none
  | acc, Component.curDir :: rest => pathCheckFrom acc rest
  | _, Component.parentDir :: _ => none
  | _, Component.rootDir :: _ => none
  | _, Component.volume _ :: _ => none

/-- Model of path_check(subpath_str, origpath): validate the untrusted
string component by component, starting from the trusted base path. -/
def path_check (subpath : String) (origpath : List String) : Option (List String) :=
  pathCheckFrom origpath (pathComponents subpath)


/-- The filesystem below the registry root: a directory holds its
entries in enumeration order; a file holds one Boolean recording
whether its contents decode as the YAML package descriptor (the only
observation the server makes of file contents). -/
inductive FsTree where
  | dir (entries : List (String × FsTree))
  | file (decodable : Bool)

/-- First entry of the list carrying the given name, modelling path
lookup of one name in a directory (names are unique on a real
filesystem). -/
def findEntry (n : String) : List (String × FsTree) → Option FsTree
  | [] => none
  | (m, t) :: rest => if m = n then some t else findEntry n rest

/-- Resolve a relative path in the tree. -/
def lookup : FsTree → List String → Option FsTree
  | t, [] => some t
  | FsTree.dir es, n :: rest =>
      match findEntry n es with
      | some t => lookup t rest
      | none => none
  | FsTree.file _, _ :: _ => none

/-- Rust Path.is_dir: the path resolves to a directory. -/
def isDir (root : FsTree) (p : List String) : Bool :=
  match lookup root p with
  | some (FsTree.dir _) => true
  | _ => false

/-- Rust Path.is_file: the path resolves to a file. -/
def isFile (root : FsTree) (p : List String) : Bool :=
  match lookup root p with
  | some (FsTree.file _) => true
  | _ => false

/-- True for a directory entry whose node is itself a directory. -/
def entryIsDir : String × FsTree → Bool
  | (_, FsTree.dir _) => true
  | (_, FsTree.file _) => false

/-- Model of path.read_dir() followed by the is_dir filter in the
resolver: listing a directory yields its subdirectory entries in
enumeration order, and listing a file fails. -/
def readDirDirs : FsTree → Option (List (String × FsTree))
  | FsTree.dir es => some (es.filter entryIsDir)
  | FsTree.file _ => none

/-- Numeral parse for one semantic-version component: digits only,
no leading zero on a multi-digit numeral. -/
def parseNumeral (s : String) : Option Nat :=
  match s.data with
  | [] => none
  | c :: cs =>
      if (c :: cs).all Char.isDigit then
        if c = '0' && cs ≠ [] then none
        else some ((c :: cs).foldl (fun n d => n * 10 + (d.toNat - '0'.toNat)) 0)
      else none

/-- Model of SemVer.parse restricted to plain MAJOR.MINOR.PATCH
numerals: exactly three dot-separated numeric components. Any other
name fails to parse; the resolver maps every parse failure to
version 0.0.0 via unwrap_or, so names carrying pre-release or build
parts are treated like any other unparsable name. -/
def parseSemVer (s : String) : Option (Nat × Nat × Nat) :=
  match splitOnChar '.' s with
  | [a, b, c] =>
      match parseNumeral a, parseNumeral b, parseNumeral c with
      | some x, some y, some z => some (x, y, z)
      | _, _, _ => none
  | _ => none

/-- The sort key of a directory name in the resolver:
SemVer.parse(..).unwrap_or(SemVer.new(0, 0, 0)). -/
def semverKey (s : String) : Nat × Nat × Nat :=
  (parseSemVer s).getD (0, 0, 0)

/-- Lexicographic order on version triples, modelling the Ord
instance of SemVer on the versions representable in this model. -/
def keyLe : Nat × Nat × Nat → Nat × Nat × Nat → Bool
  | (a1, b1, c1), (a2, b2, c2) =>
      if a1 ≠ a2 then a1 ≤ a2
      else if b1 ≠ b2 then b1 ≤ b2
      else c1 ≤ c2

/-- Insert an element into an already sorted list directly before the
first element it is less than or equal to; since the element comes
before the rest in the original order, this placement keeps a stable
order among elements with equal keys. -/
def insertLe (le : α → α → Bool) (x : α) : List α → List α
  | [] => [x]
  | y :: ys => if le x y then x :: y :: ys else y :: insertLe le x ys

/-- Stable insertion sort in ascending order for a total Boolean
preorder. -/
def insertionSort (le : α → α → Bool) : List α → List α
  | [] => []
  | x :: xs => insertLe le x (insertionSort le xs)

/-- Model of dirs.sort_by_key with the semantic-version key: a stable
ascending sort, so entries with equal keys keep their enumeration
order, exactly like the stable Rust slice sort. -/
def sortByVer (l : List (String × FsTree)) : List (String × FsTree) :=
  insertionSort (fun a b => keyLe (semverKey a.1) (semverKey b.1)) l

/-- Model of get_latest(path): list the subdirectories of the package
directory, sort them by semantic-version key, take the last, and
return the metadata.yaml path inside it when that file exists. The
returned path is relative to the package directory. -/
def get_latest (t : FsTree) : Option (List String) :=
  match readDirDirs t with
  | none => none
  | some dirs =>
      match (sortByVer dirs).getLast? with
      | none => none
      | some e =>
          if isFile t [e.1, "metadata.yaml"] then some [e.1, "metadata.yaml"]
          else none

/-- The candidate filter of get_version(path, ver): split the spec on
dots; one component keeps subdirectories whose name starts with the
component followed by a dot, two components keep names starting with
both components each followed by a dot, three components keep names
equal to the whole spec, and any other count yields no candidate set
at all. -/
def versionCandidates (t : FsTree) (ver : String) : Option (List (String × FsTree)) :=
  match readDirDirs t with
  | none => none
  | some dirs =>
      match splitOnChar '.' ver with
      | [a] => some (dirs.filter fun e => strStartsWith e.1 (a ++ "."))
      | [a, b] => some (dirs.filter fun e => strStartsWith e.1 (a ++ "." ++ b ++ "."))
      | [_, _, _] => some (dirs.filter fun e => e.1 = ver)
      | _ => none

/-- Model of get_version(path, ver): filter the subdirectories by the
spec shape, sort the candidates by semantic-version key, take the
last, and return the metadata.yaml path inside it when that file
exists. The returned path is relative to the package directory. -/
def get_version (t : FsTree) (ver : String) : Option (List String) :=
  match versionCandidates t ver with
  | none => none
  | some dirs =>
      match (sortByVer dirs).getLast? with
      | none => none
      | some e =>
          if isFile t [e.1, "metadata.yaml"] then some [e.1, "metadata.yaml"]
          else none

/-- A version directory holding a decodable metadata.yaml. -/
def vdir : FsTree :=
  FsTree.dir [("metadata.yaml", FsTree.file true)]

/-- The package directory of the worked resolution examples, with
version directories 1.0.0, 1.2.0, 1.2.5 and 2.0.0. -/
def stdPkg : FsTree :=
  FsTree.dir [("1.0.0", vdir), ("1.2.0", vdir), ("1.2.5", vdir), ("2.0.0", vdir)]


/-- Observable outcome of the metadata handler: the HTTP status it
answers with (200, 403, 404 or 500). -/
inductive Outcome where
  | ok
  | forbidden
  | notFound
  | internalError
  deriving DecidableEq, Repr

/-- Observable outcome of the package handler: 200 carrying the path
of the file that is served, or the error status (403, 404 or 500). -/
inductive PkgOutcome where
  | ok (path : List String)
  | forbidden
  | notFound
  | internalError
  deriving DecidableEq, Repr

/-- The version resolution step of the metadata handler at a package
directory node: get_version when a version spec is present in the
query, get_latest otherwise. -/
def resolveNode (t : FsTree) (v : Option String) : Option (List String) :=
  match v with
  | some ver => get_version t ver
  | none => get_latest t

/-- Model of the metadata handler for GET on packages/metadata/name
with optional query v: validate the name against the registry root
(rejection answers 403); a validated path that is not a directory
answers 404; resolve the version with get_version when v is present
and get_latest otherwise; a failed resolution or a resolved path that
is not a file answers 404; otherwise the YAML descriptor is
transcoded, answering 200 when the decode succeeds and 500 when it
fails. -/
def metadata (root : FsTree) (name : String) (v : Option String) : Outcome :=
  match path_check name [] with
  | none => Outcome.forbidden
  | some p =>
      match lookup root p with
      | some (FsTree.dir es) =>
          match resolveNode (FsTree.dir es) v with
          | some mp =>
              match lookup root (p ++ mp) with
              | some (FsTree.file dec) =>
                  if dec then Outcome.ok else Outcome.internalError
              | _ => Outcome.notFound
          | none => Outcome.notFound
      | _ => Outcome.notFound

/-- The archive filename the package handler derives from the route
parameters: name-ver.pax. -/
def archiveName (name ver : String) : String :=
  name ++ "-" ++ ver ++ ".pax"

/-- Model of the package handler for GET on package/name/ver:
validate the name against the registry root (rejection answers 403);
a validated path that is not a directory answers 404; then the
derived archive filename name-ver.pax is validated against the
package path, and a rejection falls through to the closing 500
answer; a validated archive path is opened, answering 200 with the
file when it exists and 500 when the open fails. -/
def package (root : FsTree) (name ver : String) : PkgOutcome :=
  match path_check name [] with
  | none => PkgOutcome.forbidden
  | some p =>
      if isDir root p then
        match path_check (archiveName name ver) p with
        | some q =>
            if isFile root q then PkgOutcome.ok q else PkgOutcome.internalError
        | none => PkgOutcome.internalError
      else PkgOutcome.notFound

/-- Resolution as the metadata handler performs it at a validated
package path: get_version when a version spec is present, get_latest
otherwise. -/
def resolveAt (root : FsTree) (p : List String) (v : Option String) : Option (List String) :=
  match lookup root p with
  | some t => resolveNode t v
  | none => none

/-- The path names a file whose contents decode as the package
descriptor. -/
def decodableAt (root : FsTree) (q : List String) : Bool :=
  match lookup root q with
  | some (FsTree.file true) => true
  | _ => false

/-- A rejecting component anywhere in the list makes the component
loop of path_check reject. -/
theorem pathCheckFrom_reject (l : List Component) :
    ∀ acc : List String, (∃ c ∈ l, rejectComp c = true) → pathCheckFrom acc l = none := by
  induction l with
  | nil => intro acc h; simp at h
  | cons c rest ih =>
    intro acc h
    cases c with
    | normal n =>
      have h' : ∃ c ∈ rest, rejectComp c = true := by
        rcases h with ⟨d, hd, hrej⟩
        rcases List.mem_cons.mp hd with rfl | hmem
        · simp [rejectComp] at hrej
        · exact ⟨d, hmem, hrej⟩
      by_cases hc : (pathComponents n).all isNormalComp
      · simp only [pathCheckFrom, hc, if_true]
        exact ih _ h'
      · simp [pathCheckFrom, hc]
    | curDir =>
      have h' : ∃ c ∈ rest, rejectComp c = true := by
        rcases h with ⟨d, hd, hrej⟩
        rcases List.mem_cons.mp hd with rfl | hmem
        · simp [rejectComp] at hrej
        · exact ⟨d, hmem, hrej⟩
      simpa only [pathCheckFrom] using ih _ h'
    | parentDir => rfl
    | rootDir => rfl
    | volume n => rfl

/-- When every component is a plain name whose own decomposition is
plain, the component loop of path_check accepts and appends every
name in order. -/
theorem pathCheckFrom_plain (l : List Component) :
    ∀ acc : List String, (∀ c ∈ l, plainComp c = true) →
      pathCheckFrom acc l = some (acc ++ acceptedNames l) := by
  induction l with
  | nil => intro acc _; simp [pathCheckFrom, acceptedNames]
  | cons c rest ih =>
    intro acc h
    have hc := h c (List.mem_cons_self c rest)
    have h' : ∀ c ∈ rest, plainComp c = true :=
      fun d hd => h d (List.mem_cons_of_mem c hd)
    cases c with
    | normal n =>
      have hn : (pathComponents n).all isNormalComp = true := by
        simpa [plainComp] using hc
      simp only [pathCheckFrom, hn, if_true]
      rw [ih _ h']
      simp [acceptedNames]
    | curDir => simp [plainComp] at hc
    | parentDir => simp [plainComp] at hc
    | rootDir => simp [plainComp] at hc
    | volume n => simp [plainComp] at hc

/-- C1: path_check rejects every input one of whose components is a
parent-directory, root, or drive/volume marker, and accepts every
input all of whose components are plain names decomposing into a
single plain name, returning exactly the base directory extended by
the accepted components in order, hence a path inside the base
directory. -/
theorem path_check_safety (s : String) (base : List String) :
    ((∃ c ∈ pathComponents s, rejectComp c = true) → path_check s base = none)
    ∧ ((∀ c ∈ pathComponents s, plainComp c = true) →
        path_check s base = some (base ++ acceptedNames (pathComponents s))) :=
  ⟨fun h => pathCheckFrom_reject (pathComponents s) base h,
   fun h => pathCheckFrom_plain (pathComponents s) base h⟩

/-- Witness for C1 at concrete inputs: a traversal input is rejected
and a plain two-component input extends the base in order. -/
theorem path_check_safety_witness :
    path_check "a/../b" [] = none
    ∧ path_check "a/b" ["base"] = some ["base", "a", "b"] := by
  refine ⟨(path_check_safety "a/../b" []).1 ?_,
    ((path_check_safety "a/b" ["base"]).2 ?_).trans ?_⟩
  · decide
  · decide
  · decide

/-- C2: on the package directory with version directories 1.0.0,
1.2.0, 1.2.5 and 2.0.0, each holding the descriptor, spec 1 resolves
to 1.2.5, spec 1.2 resolves to 1.2.5, spec 2.0.0 resolves to 2.0.0,
and an absent spec resolves to 2.0.0. -/
theorem resolve_examples :
    get_version stdPkg "1" = some ["1.2.5", "metadata.yaml"]
    ∧ get_version stdPkg "1.2" = some ["1.2.5", "metadata.yaml"]
    ∧ get_version stdPkg "2.0.0" = some ["2.0.0", "metadata.yaml"]
    ∧ get_latest stdPkg = some ["2.0.0", "metadata.yaml"] := by decide

/-- A package directory with a single subdirectory whose name has a
non-numeric leading component. -/
def pkgAbc : FsTree := FsTree.dir [("abc.q", vdir)]

/-- C3 counterexample: a non-numeric one-component spec is not
rejected by shape; against a directory named abc.q, spec abc resolves
to that directory instead of NotFound. -/
theorem get_version_nonnumeric_counterexample :
    get_version pkgAbc "abc" = some ["abc.q", "metadata.yaml"] := by decide

/-- C3 amended: a spec with more than three dot-separated components
always resolves to none, for every package directory; non-numeric
components are not shape-checked, so a spec such as abc yields none
only when no subdirectory name matches its prefix filter, as with the
numeric directory set of the worked example, for which both 1.2.3.4
and abc resolve to none. -/
theorem get_version_shape :
    (∀ (t : FsTree) (ver : String), 3 < (splitOnChar '.' ver).length →
      get_version t ver = none)
    ∧ get_version stdPkg "1.2.3.4" = none
    ∧ get_version stdPkg "abc" = none := by
  refine ⟨?_, by decide, by decide⟩
  intro t ver h
  unfold get_version versionCandidates
  cases hrd : readDirDirs t with
  | none => rfl
  | some dirs =>
    rcases hs : splitOnChar '.' ver with _ | ⟨a, _ | ⟨b, _ | ⟨c, _ | ⟨d, rest⟩⟩⟩⟩
    · rw [hs] at h
    · rw [hs] at h; simp at h
    · rw [hs] at h; simp at h
    · rw [hs] at h; simp at h
    · rfl

/-- Witness for C3 amended at a concrete input: a four-component spec
resolves to none on an empty package directory. -/
theorem get_version_shape_witness :
    get_version (FsTree.dir []) "1.2.3.4" = none :=
  get_version_shape.1 (FsTree.dir []) "1.2.3.4" (by decide)

/-- Package directory holding latest and 1.0.0, in that enumeration
order. -/
def latestPkgA : FsTree := FsTree.dir [("latest", vdir), ("1.0.0", vdir)]

/-- Package directory holding 1.0.0 and latest, in that enumeration
order. -/
def latestPkgB : FsTree := FsTree.dir [("1.0.0", vdir), ("latest", vdir)]

/-- C4: every name that fails semantic-version parsing gets sort key
0.0.0; a directory named latest stays in the enumeration for the
absent spec, and next to 1.0.0 the resolution selects 1.0.0 in either
enumeration order. -/
theorem unparsable_sorts_lowest :
    (∀ s : String, parseSemVer s = none → semverKey s = (0, 0, 0))
    ∧ readDirDirs latestPkgA = some [("latest", vdir), ("1.0.0", vdir)]
    ∧ get_latest latestPkgA = some ["1.0.0", "metadata.yaml"]
    ∧ get_latest latestPkgB = some ["1.0.0", "metadata.yaml"] := by
  refine ⟨?_, rfl, by decide, by decide⟩
  intro s h
  unfold semverKey
  rw [h]
  rfl

/-- Witness for C4 at a concrete input: latest fails parsing and gets
key 0.0.0, and resolution next to 1.0.0 selects 1.0.0. -/
theorem unparsable_sorts_lowest_witness :
    semverKey "latest" = (0, 0, 0)
    ∧ get_latest latestPkgA = some ["1.0.0", "metadata.yaml"] :=
  ⟨unparsable_sorts_lowest.1 "latest" (by decide), unparsable_sorts_lowest.2.2.1⟩

/-- Looking up a concatenated path steps through the first part and
continues with the second. -/
theorem lookup_append (p q : List String) : ∀ root : FsTree,
    lookup root (p ++ q) = (lookup root p).bind fun t => lookup t q := by
  induction p with
  | nil => intro root; simp [lookup]
  | cons n rest ih =>
    intro root
    cases root with
    | file b => simp [lookup]
    | dir es =>
      simp only [List.cons_append, lookup]
      cases findEntry n es with
      | none => simp
      | some t => simpa using ih t

/-- A path that is a file resolves to a file node. -/
theorem isFile_lookup (t : FsTree) (p : List String) (h : isFile t p = true) :
    ∃ b, lookup t p = some (FsTree.file b) := by
  unfold isFile at h
  cases hl : lookup t p with
  | none => rw [hl] at h; simp at h
  | some u =>
    cases u with
    | dir es => rw [hl] at h; simp at h
    | file b => exact ⟨b, rfl⟩

/-- When get_latest answers a path, that path is a file of the
package directory. -/
theorem get_latest_isFile (t : FsTree) (mp : List String)
    (h : get_latest t = some mp) : isFile t mp = true := by
  unfold get_latest at h
  split at h
  · simp at h
  · split at h
    · simp at h
    · split at h
      · obtain rfl : [_, "metadata.yaml"] = mp := by simpa using h
        assumption
      · simp at h

/-- When get_version answers a path, that path is a file of the
package directory. -/
theorem get_version_isFile (t : FsTree) (ver : String) (mp : List String)
    (h : get_version t ver = some mp) : isFile t mp = true := by
  unfold get_version at h
  split at h
  · simp at h
  · split at h
    · simp at h
    · split at h
      · obtain rfl : [_, "metadata.yaml"] = mp := by simpa using h
        assumption
      · simp at h

/-- A path whose node is a directory resolves to a directory node. -/
theorem isDir_lookup (root : FsTree) (p : List String) (h : isDir root p = true) :
    ∃ es, lookup root p = some (FsTree.dir es) := by
  unfold isDir at h
  cases hl : lookup root p with
  | none => rw [hl] at h; simp at h
  | some u =>
    cases u with
    | dir es => exact ⟨es, rfl⟩
    | file b => rw [hl] at h; simp at h

/-- When resolution at a validated directory path answers a path, the
concatenated path is a file below the registry root. -/
theorem resolveAt_isFile (root : FsTree) (p mp : List String) (v : Option String)
    (h : resolveAt root p v = some mp) : isFile root (p ++ mp) = true := by
  unfold resolveAt at h
  cases hl : lookup root p with
  | none => rw [hl] at h; simp at h
  | some t =>
    rw [hl] at h
    have hf : isFile t mp = true := by
      cases v with
      | none => exact get_latest_isFile t mp h
      | some ver => exact get_version_isFile t ver mp h
    obtain ⟨b, hb⟩ := isFile_lookup t mp hf
    unfold isFile
    rw [lookup_append, hl]
    simp [hb]

/-- C6: the metadata endpoint answers 403 exactly when the package
name fails path validation; it answers 404 when the validated package
path is not a directory and when version resolution fails (no
candidate, or the selected version directory lacks the descriptor
file); when resolution answers a descriptor path, the endpoint
answers 200 if that file decodes and 500 if it does not, so Forbidden
is always an outcome distinct from NotFound. -/
theorem metadata_status_contract (root : FsTree) (name : String) (v : Option String) :
    (metadata root name v = Outcome.forbidden ↔ path_check name [] = none)
    ∧ (∀ p, path_check name [] = some p → isDir root p = false →
        metadata root name v = Outcome.notFound)
    ∧ (∀ p, path_check name [] = some p → isDir root p = true →
        resolveAt root p v = none → metadata root name v = Outcome.notFound)
    ∧ (∀ p mp, path_check name [] = some p → isDir root p = true →
        resolveAt root p v = some mp →
        metadata root name v =
          (if decodableAt root (p ++ mp) then Outcome.ok else Outcome.internalError)) := by
  refine ⟨⟨?_, ?_⟩, ?_, ?_, ?_⟩
  · intro h
    cases hp : path_check name [] with
    | none => rfl
    | some p =>
      exfalso
      simp only [metadata, hp] at h
      cases hl : lookup root p with
      | none => simp only [hl] at h; exact Outcome.noConfusion h
      | some t =>
        cases t with
        | file b => simp only [hl] at h; exact Outcome.noConfusion h
        | dir es =>
          simp only [hl] at h
          cases hr : resolveNode (FsTree.dir es) v with
          | none => simp only [hr] at h; exact Outcome.noConfusion h
          | some mp =>
            simp only [hr] at h
            cases hq : lookup root (p ++ mp) with
            | none => simp only [hq] at h; exact Outcome.noConfusion h
            | some u =>
              cases u with
              | dir es2 => simp only [hq] at h; exact Outcome.noConfusion h
              | file dec =>
                simp only [hq] at h
                cases dec <;> simp at h
  · intro h
    unfold metadata
    rw [h]
  · intro p hp hd
    simp only [metadata, hp]
    cases hl : lookup root p with
    | none => simp only [hl]
    | some t =>
      cases t with
      | file b => simp only [hl]
      | dir es =>
        exfalso
        unfold isDir at hd
        rw [hl] at hd
        simp at hd
  · intro p hp hd hr
    obtain ⟨es, hl⟩ := isDir_lookup root p hd
    have hr' : resolveNode (FsTree.dir es) v = none := by
      unfold resolveAt at hr
      rw [hl] at hr
      simpa using hr
    simp only [metadata, hp, hl, hr']
  · intro p mp hp hd hr
    have hfile : isFile root (p ++ mp) = true := resolveAt_isFile root p mp v hr
    obtain ⟨b, hb⟩ := isFile_lookup root (p ++ mp) hfile
    obtain ⟨es, hl⟩ := isDir_lookup root p hd
    have hr' : resolveNode (FsTree.dir es) v = some mp := by
      unfold resolveAt at hr
      rw [hl] at hr
      simpa using hr
    simp only [metadata, hp, hl, hr', hb]
    cases b <;> simp [decodableAt, hb]

/-- The registry root of the worked metadata example. -/
def fsW : FsTree := FsTree.dir [("pkg", stdPkg)]

/-- Witness for C6 at a concrete input: on the worked registry the
metadata endpoint answers 200 for the package with an absent spec. -/
theorem metadata_status_contract_witness : metadata fsW "pkg" none = Outcome.ok := by
  have h := (metadata_status_contract fsW "pkg" none).2.2.2 ["pkg"]
    ["2.0.0", "metadata.yaml"] (by decide) (by decide) (by decide)
  exact h.trans (by decide)

/-- A registry holding one package directory with no versions and no
archive files. -/
def cx5 : FsTree := FsTree.dir [("pkg", FsTree.dir [])]

/-- C5 counterexample: on the archive endpoint, a derived archive
filename that fails path validation answers 500, not 403, and a
validated archive path that does not name an existing file also
answers 500, not 404. -/
theorem package_errors_counterexample :
    package cx5 "pkg" "/../x" = PkgOutcome.internalError
    ∧ package cx5 "pkg" "/../x" ≠ PkgOutcome.forbidden
    ∧ package cx5 "pkg" "1.0.0" = PkgOutcome.internalError
    ∧ package cx5 "pkg" "1.0.0" ≠ PkgOutcome.notFound := by decide

/-- C5 amended: on the archive endpoint only the package name is
mapped to 403 and 404: the answer is 403 exactly when the name fails
path validation and 404 exactly when the validated package path is
not a directory; the derived archive filename is mapped differently
from the metadata endpoint: its validation failure answers 500, and a
validated archive path answers 200 with that file when it opens and
500 when it does not, so a missing archive also answers 500. -/
theorem package_status_contract (root : FsTree) (name ver : String) :
    (package root name ver = PkgOutcome.forbidden ↔ path_check name [] = none)
    ∧ (∀ p, path_check name [] = some p →
        (package root name ver = PkgOutcome.notFound ↔ isDir root p = false))
    ∧ (∀ p, path_check name [] = some p → isDir root p = true →
        path_check (archiveName name ver) p = none →
        package root name ver = PkgOutcome.internalError)
    ∧ (∀ p q, path_check name [] = some p → isDir root p = true →
        path_check (archiveName name ver) p = some q →
        package root name ver =
          (if isFile root q then PkgOutcome.ok q else PkgOutcome.internalError)) := by
  refine ⟨⟨?_, ?_⟩, ?_, ?_, ?_⟩
  · intro h
    cases hp : path_check name [] with
    | none => rfl
    | some p =>
      exfalso
      simp only [package, hp] at h
      by_cases hd : isDir root p
      · simp only [hd, if_true] at h
        cases hq : path_check (archiveName name ver) p with
        | none => simp only [hq] at h; exact PkgOutcome.noConfusion h
        | some q =>
          simp only [hq] at h
          by_cases hf : isFile root q
          · simp only [hf, if_true] at h; exact PkgOutcome.noConfusion h
          · simp only [hf, if_false] at h; exact PkgOutcome.noConfusion h
      · simp only [hd, if_false] at h; exact PkgOutcome.noConfusion h
  · intro h
    unfold package
    rw [h]
  · intro p hp
    simp only [package, hp]
    constructor
    · intro h
      by_cases hd : isDir root p
      · exfalso
        simp only [hd, if_true] at h
        cases hq : path_check (archiveName name ver) p with
        | none => simp only [hq] at h; exact PkgOutcome.noConfusion h
        | some q =>
          simp only [hq] at h
          by_cases hf : isFile root q
          · simp only [hf, if_true] at h; exact PkgOutcome.noConfusion h
          · simp only [hf, if_false] at h; exact PkgOutcome.noConfusion h
      · simpa using hd
    · intro hd
      simp [hd]
  · intro p hp hd hq
    simp only [package, hp, hd, if_true, hq]
  · intro p q hp hd hq
    simp only [package, hp, hd, if_true, hq]

/-- Witness for C5 amended at concrete inputs: a registry with the
archive present answers 200 with that file. -/
theorem package_status_contract_witness :
    package (FsTree.dir [("w5", FsTree.dir [("w5-0.1.0.pax", FsTree.file true)])])
      "w5" "0.1.0" = PkgOutcome.ok ["w5", "w5-0.1.0.pax"] := by
  have h := (package_status_contract
    (FsTree.dir [("w5", FsTree.dir [("w5-0.1.0.pax", FsTree.file true)])])
    "w5" "0.1.0").2.2.2 ["w5"] ["w5", "w5-0.1.0.pax"] (by decide) (by decide) (by decide)
  exact h.trans (by decide)

/-- A registry in which the archive file sits inside the version
directory of its package, as the spec describes. -/
def fs7 : FsTree :=
  FsTree.dir [("pkg", FsTree.dir [("1.0.0",
    FsTree.dir [("metadata.yaml", FsTree.file true), ("pkg-1.0.0.pax", FsTree.file true)])])]

/-- C7 counterexample: with the archive stored inside the version
directory, where the claim locates it, the archive endpoint does not
serve it but answers 500: the handler never consults the version
resolver and looks for the archive directly inside the package
directory. -/
theorem package_version_dir_counterexample :
    isFile fs7 ["pkg", "1.0.0", "pkg-1.0.0.pax"] = true
    ∧ package fs7 "pkg" "1.0.0" = PkgOutcome.internalError := by decide

/-- C7 amended: every archive the endpoint serves lies at the
validated package path extended by the validated components of the
derived filename name-ver.pax, that is directly below the package
directory rather than inside a resolved version directory, and the
version resolver is not consulted. -/
theorem package_served_path (root : FsTree) (name ver : String) (r : List String)
    (h : package root name ver = PkgOutcome.ok r) :
    ∃ p, path_check name [] = some p ∧ isDir root p = true
      ∧ path_check (archiveName name ver) p = some r ∧ isFile root r = true := by
  unfold package at h
  cases hp : path_check name [] with
  | none => rw [hp] at h; exact PkgOutcome.noConfusion h
  | some p =>
    simp only [hp] at h
    by_cases hd : isDir root p
    · simp only [hd, if_true] at h
      cases hq : path_check (archiveName name ver) p with
      | none => simp only [hq] at h; exact PkgOutcome.noConfusion h
      | some q =>
        simp only [hq] at h
        by_cases hf : isFile root q
        · simp only [hf, if_true] at h
          obtain rfl : q = r := by simpa using h
          exact ⟨p, rfl, hd, hq, hf⟩
        · simp only [hf, if_false] at h; exact PkgOutcome.noConfusion h
    · simp only [hd, if_false] at h; exact PkgOutcome.noConfusion h

/-- A registry whose package directory holds the archive directly. -/
def fsA : FsTree := FsTree.dir [("pkg", FsTree.dir [("pkg-1.0.0.pax", FsTree.file true)])]

/-- Witness for C7 amended at a concrete input: the file served for
the package and version lies directly below the package directory. -/
theorem package_served_path_witness :
    ∃ p, path_check "pkg" [] = some p ∧ isDir fsA p = true
      ∧ path_check (archiveName "pkg" "1.0.0") p = some ["pkg", "pkg-1.0.0.pax"]
      ∧ isFile fsA ["pkg", "pkg-1.0.0.pax"] = true :=
  package_served_path fsA "pkg" "1.0.0" ["pkg", "pkg-1.0.0.pax"] (by decide)

/-- A package directory holding only the version directory 20.0.0. -/
def pkg20only : FsTree := FsTree.dir [("20.0.0", vdir)]

/-- C8 counterexample: a directory named 20.0.0 is not in the
candidate set for the one-component spec 2, and resolution of spec 2
against a package holding only 20.0.0 finds nothing. -/
theorem major_spec_counterexample :
    versionCandidates pkg20only "2" = some []
    ∧ get_version pkg20only "2" = none :=
  ⟨rfl, by decide⟩

/-- A package directory holding the version directories 20.0.0 and
2.5.0. -/
def pkg20 : FsTree := FsTree.dir [("20.0.0", vdir), ("2.5.0", vdir)]

/-- C8 amended: a one-component spec matches by string prefix, but
the prefix includes the trailing dot, so spec 2 keeps exactly the
subdirectories whose name starts with the two characters 2 and dot;
20.0.0 does not start with that prefix and is excluded, while 2.5.0
matches. -/
theorem major_spec_matching :
    (∀ t : FsTree, versionCandidates t "2"
        = (readDirDirs t).map (List.filter fun e => strStartsWith e.1 "2."))
    ∧ strStartsWith "20.0.0" "2." = false
    ∧ get_version pkg20 "2" = some ["2.5.0", "metadata.yaml"] := by
  refine ⟨?_, by decide, by decide⟩
  intro t
  cases t with
  | file b => rfl
  | dir es => rfl

/-- A registry with one package holding one version directory. -/
def fs9 : FsTree := FsTree.dir [("pkg", FsTree.dir [("1.0.0", vdir)])]

/-- C9 counterexample: on a package holding only 1.0.0, the metadata
endpoint answers 404 for the empty version spec but 200 for the
absent spec, so the empty spec does not mean latest. -/
theorem empty_spec_counterexample :
    metadata fs9 "pkg" (some "") = Outcome.notFound
    ∧ metadata fs9 "pkg" none = Outcome.ok := by decide

/-- A package directory whose only subdirectory name starts with a
dot. -/
def pkgHidden : FsTree := FsTree.dir [(".hidden", vdir)]

/-- C9 amended: the empty version spec is not treated as latest: it
splits into one empty component, so it is handled as a one-component
spec whose prefix filter is a single dot, keeping exactly the
subdirectories whose name starts with a dot; against such a
directory it resolves to it, while against ordinary numeric version
directories it resolves to nothing, unlike the absent spec. -/
theorem empty_spec_behavior :
    (∀ t : FsTree, versionCandidates t ""
        = (readDirDirs t).map (List.filter fun e => strStartsWith e.1 "."))
    ∧ get_version pkgHidden "" = some [".hidden", "metadata.yaml"]
    ∧ get_version stdPkg "" = none
    ∧ get_latest stdPkg = some ["2.0.0", "metadata.yaml"] := by
  refine ⟨?_, by decide, by decide, by decide⟩
  intro t
  cases t with
  | file b => rfl
  | dir es => rfl

/-- A registry in which the package directory holds a nested
subdirectory containing an archive file. -/
def fs10 : FsTree :=
  FsTree.dir [("pkg", FsTree.dir [("pkg-a", FsTree.dir [("b.pax", FsTree.file true)])])]

/-- C10: a version string containing a separator but no rejected
component passes the filename validation of the archive endpoint as a
multi-component relative path: version a slash b derives the filename
pkg-a/b.pax, which validates to the nested path pkg, pkg-a, b.pax
under the registry root, and the endpoint serves that nested file. -/
theorem nested_archive_path :
    path_check "pkg-a/b.pax" ["pkg"] = some ["pkg", "pkg-a", "b.pax"]
    ∧ archiveName "pkg" "a/b" = "pkg-a/b.pax"
    ∧ package fs10 "pkg" "a/b" = PkgOutcome.ok ["pkg", "pkg-a", "b.pax"] := by decide
